import Mathlib

/-!
Shallow embedding of the qopyapp `p2p-core` peer-discovery service
(`src/p2p-core/src/peer_discovery.rs` and `src/p2p-core/src/error.rs`),
together with proofs of the specification's claims about it.

The embedding models:
* the `Peer`, `DiscoveryConfig`, `PeerEvent` and `PeerDiscoveryError` data
  types;
* the registry (`HashMap<String, Peer>`) as an association list with
  HashMap-equivalent insert/remove/lookup semantics;
* the pure state transitions of `PeerDiscovery::start`, `stop`,
  `get_peers`, `get_peer`, `discover_peers` and
  `PeerDiscovery::handle_service_event`, with the external registrar's
  outcome passed in as an explicit parameter and the published events
  accumulated in an explicit log;
* the event bus (a tokio broadcast channel of capacity 100, external to
  the repository) modelled from the spec.
-/

/-- Model of `std::net::IpAddr`: a v4 or v6 address. Only the v4/v6
distinction is observed by the code under study (`addr.is_ipv4()`), so the
numeric payload is kept abstract as a `Nat`. -/
inductive IpAddr where
  | v4 (val : Nat)
  | v6 (val : Nat)
  deriving DecidableEq, Repr

/-- `IpAddr::is_ipv4`. -/
def IpAddr.is_ipv4 : IpAddr → Bool
  | .v4 _ => true
  | .v6 _ => false

/-- Model of `PeerDiscoveryError` from `src/p2p-core/src/error.rs`. -/
inductive PeerDiscoveryError where
  | MdnsError (msg : String)
  | NetworkInterfaceError (msg : String)
  | ServiceRegistrationFailed (msg : String)
  | ServiceDiscoveryFailed (msg : String)
  | InvalidServiceType (msg : String)
  | DiscoveryTimeout (msg : String)
  | IoError (msg : String)
  deriving DecidableEq, Repr

/-- Whether an error is the timeout kind (`DiscoveryTimeout`). -/
def PeerDiscoveryError.isTimeoutKind : PeerDiscoveryError → Bool
  | .DiscoveryTimeout _ => true
  | _ => false

/-- Model of the `Peer` struct: a discovered peer with its network
information. `properties` models the `HashMap<String, String>` as an
association list with unique keys. -/
structure Peer where
  name : String
  ip : IpAddr
  port : Nat
  service_type : String
  properties : List (String × String)
  deriving DecidableEq, Repr

/-- Model of `DiscoveryConfig`. Durations are abstract `Nat` time units. -/
structure DiscoveryConfig where
  service_type : String
  service_name : String
  port : Nat
  properties : List (String × String)
  discovery_timeout : Nat
  announce_interval : Nat
  deriving DecidableEq, Repr

/-- `DiscoveryConfig::default()`. -/
def DiscoveryConfig.default : DiscoveryConfig :=
  { service_type := "_qopyapp._tcp.local."
    service_name := "qopyapp-device"
    port := 8080
    properties := []
    discovery_timeout := 10
    announce_interval := 30 }

/-- Model of the `PeerEvent` enum: events emitted by the discovery
service. -/
inductive PeerEvent where
  | PeerDiscovered (p : Peer)
  | PeerLost (p : Peer)
  | ServiceStarted
  | ServiceStopped
  | Error (e : PeerDiscoveryError)
  deriving DecidableEq, Repr

/-! ### Association-list model of `HashMap`

The registry `HashMap<String, Peer>` and the property bag
`HashMap<String, String>` are modelled as association lists whose
operations have the semantics of the corresponding `HashMap` methods:
`insert` overwrites the entry of an existing key, `remove` deletes it and
returns the removed value, `get` looks it up. -/

/-- `HashMap::insert`: overwrite the entry for `k` if present, otherwise
append a new entry. -/
def mapInsert {α : Type} (k : String) (v : α) : List (String × α) → List (String × α)
  | [] => [(k, v)]
  | (k', v') :: t => if k' = k then (k, v) :: t else (k', v') :: mapInsert k v t

/-- `HashMap::get`: first entry with the given key. -/
def mapFind {α : Type} (k : String) : List (String × α) → Option α
  | [] => none
  | (k', v') :: t => if k' = k then some v' else mapFind k t

/-- `HashMap::remove`: drop the entry for `k` (if any) and return the
removed value together with the remaining map. -/
def mapRemove {α : Type} (k : String) : List (String × α) → Option α × List (String × α)
  | [] => (none, [])
  | (k', v') :: t =>
    if k' = k then (some v', t)
    else
      let r := mapRemove k t
      (r.1, (k', v') :: r.2)

/-- `HashMap::values`: the stored values. -/
def mapValues {α : Type} (m : List (String × α)) : List α := m.map Prod.snd

/-! ### Lossy UTF-8 decoding

Models `String::from_utf8_lossy`: decode a byte sequence as UTF-8,
replacing ill-formed subsequences with U+FFFD. -/

/-- The Unicode replacement character U+FFFD. -/
def replacementChar : Char := Char.ofNat 0xFFFD

/-- Whether a byte is a UTF-8 continuation byte (`0b10xxxxxx`). -/
def isUtf8Cont (b : Nat) : Bool := 0x80 ≤ b && b < 0xC0

/-- Valid second-byte range for a three-byte UTF-8 sequence with lead
byte `b` (0xE0 excludes overlong encodings, 0xED excludes surrogates). -/
def utf8SecondOk3 (b b1 : Nat) : Bool :=
  if b = 0xE0 then 0xA0 ≤ b1 && b1 < 0xC0
  else if b = 0xED then 0x80 ≤ b1 && b1 < 0xA0
  else isUtf8Cont b1

/-- Valid second-byte range for a four-byte UTF-8 sequence with lead
byte `b` (0xF0 excludes overlong encodings, 0xF4 excludes code points
past U+10FFFF). -/
def utf8SecondOk4 (b b1 : Nat) : Bool :=
  if b = 0xF0 then 0x90 ≤ b1 && b1 < 0xC0
  else if b = 0xF4 then 0x80 ≤ b1 && b1 < 0x90
  else isUtf8Cont b1

/-- Fuel-indexed UTF-8 decoding loop with the substitution-of-maximal-
subparts policy of `String::from_utf8_lossy`: each maximal prefix of a
well-formed sequence becomes exactly one U+FFFD, and the byte that
broke the sequence is reprocessed as the start of the next one; a
well-formed but incomplete sequence at the end of input is one
U+FFFD. -/
def utf8LossyGo : Nat → List Nat → List Char
  | 0, _ => []
  | _, [] => []
  | fuel + 1, b :: rest =>
    if b < 0x80 then
      Char.ofNat b :: utf8LossyGo fuel rest
    else if b < 0xC2 then
      replacementChar :: utf8LossyGo fuel rest
    else if b < 0xE0 then
      match rest with
      | b1 :: rest' =>
        if isUtf8Cont b1 then
          Char.ofNat ((b - 0xC0) * 0x40 + (b1 - 0x80)) :: utf8LossyGo fuel rest'
        else replacementChar :: utf8LossyGo fuel rest
      | [] => [replacementChar]
    else if b < 0xF0 then
      match rest with
      | b1 :: rest' =>
        if utf8SecondOk3 b b1 then
          match rest' with
          | b2 :: rest'' =>
            if isUtf8Cont b2 then
              Char.ofNat ((b - 0xE0) * 0x1000 + (b1 - 0x80) * 0x40 + (b2 - 0x80)) ::
                utf8LossyGo fuel rest''
            else replacementChar :: utf8LossyGo fuel rest'
          | [] => [replacementChar]
        else replacementChar :: utf8LossyGo fuel rest
      | [] => [replacementChar]
    else if b < 0xF5 then
      match rest with
      | b1 :: rest' =>
        if utf8SecondOk4 b b1 then
          match rest' with
          | b2 :: rest'' =>
            if isUtf8Cont b2 then
              match rest'' with
              | b3 :: rest''' =>
                if isUtf8Cont b3 then
                  Char.ofNat ((b - 0xF0) * 0x40000 + (b1 - 0x80) * 0x1000 +
                      (b2 - 0x80) * 0x40 + (b3 - 0x80)) ::
                    utf8LossyGo fuel rest'''
                else replacementChar :: utf8LossyGo fuel rest''
              | [] => [replacementChar]
            else replacementChar :: utf8LossyGo fuel rest'
          | [] => [replacementChar]
        else replacementChar :: utf8LossyGo fuel rest
      | [] => [replacementChar]
    else
      replacementChar :: utf8LossyGo fuel rest

/-- `String::from_utf8_lossy` on a byte list. -/
def from_utf8_lossy (bytes : List Nat) : String :=
  String.mk (utf8LossyGo bytes.length bytes)

/-! ### Raw service events and resolved records -/

/-- Model of `mdns_sd::ServiceInfo` as observed by the code: the full
name, the advertised addresses, the port, the service type and the TXT
properties. A property value is `none` when the TXT property has no
associated value (`prop.val()` returns `None`), otherwise the raw
bytes. -/
structure ServiceInfo where
  fullname : String
  addresses : List IpAddr
  port : Nat
  ty : String
  properties : List (String × Option (List Nat))
  deriving DecidableEq, Repr

/-- Model of `mdns_sd::ServiceEvent` as matched by the code: a resolved
record, a removed record (service type and full name), or any of the
other variants, which the code ignores. -/
inductive ServiceEvent where
  | ServiceResolved (info : ServiceInfo)
  | ServiceRemoved (ty : String) (fullname : String)
  | otherEvent
  deriving DecidableEq, Repr

/-- The registry: `HashMap<String, Peer>` keyed by the peer's full
name. -/
abbrev Registry : Type := List (String × Peer)

/-- Property-bag translation from `handle_service_event`:
`info.get_properties().iter().filter_map(|prop| prop.val().map(|val|
(prop.key().to_string(), String::from_utf8_lossy(val).to_string())))
.collect()` — keep only properties with an associated value, lossily
decode each value, and collect into a `HashMap`. -/
def translateProps (props : List (String × Option (List Nat))) : List (String × String) :=
  (props.filterMap fun prop => prop.2.map fun val => (prop.1, from_utf8_lossy val)).foldl
    (fun m kv => mapInsert kv.1 kv.2 m) []

/-- `PeerDiscovery::handle_service_event`: translate one raw service
event into a registry update plus the published events, or an error
(which the browse loop turns into a `PeerEvent.Error`). Returns the new
registry, the events sent on `peer_sender`, and the `Result`. -/
def handle_service_event (event : ServiceEvent) (discovered_peers : Registry) :
    Registry × List PeerEvent × Except PeerDiscoveryError Unit :=
  match event with
  | .ServiceResolved info =>
    match info.addresses.find? (fun addr => addr.is_ipv4) with
    | none =>
      (discovered_peers, [],
        .error (.NetworkInterfaceError "No IPv4 address found"))
    | some ip =>
      let peer : Peer :=
        { name := info.fullname
          ip := ip
          port := info.port
          service_type := info.ty
          properties := translateProps info.properties }
      (mapInsert peer.name peer discovered_peers, [.PeerDiscovered peer], .ok ())
  | .ServiceRemoved _ fullname =>
    let r := mapRemove fullname discovered_peers
    match r.1 with
    | some peer => (r.2, [.PeerLost peer], .ok ())
    | none => (r.2, [], .ok ())
  | .otherEvent => (discovered_peers, [], .ok ())

/-- One iteration of the browse loop in `start_discovery`: handle the
event; on error, additionally publish `PeerEvent::Error`. The state is
the registry together with the log of all events published so far. -/
def browseStep (s : Registry × List PeerEvent) (event : ServiceEvent) :
    Registry × List PeerEvent :=
  let r := handle_service_event event s.1
  match r.2.2 with
  | .ok _ => (r.1, s.2 ++ r.2.1)
  | .error e => (r.1, s.2 ++ r.2.1 ++ [.Error e])

/-- The browse loop applied to a finite sequence of raw events, one at a
time. -/
def browseLoop (events : List ServiceEvent) (s : Registry × List PeerEvent) :
    Registry × List PeerEvent :=
  events.foldl browseStep s

/-- Translation of a resolved record into a `Peer`, exactly as the
`ServiceEvent::ServiceResolved` arm of `handle_service_event` builds it:
`none` when no IPv4 address is advertised. -/
def translatePeer (info : ServiceInfo) : Option Peer :=
  (info.addresses.find? (fun addr => addr.is_ipv4)).map fun ip =>
    { name := info.fullname
      ip := ip
      port := info.port
      service_type := info.ty
      properties := translateProps info.properties }

/-- Modelled from the spec (§8, Registry fold invariant): one step of
the reference fold — insert the translated Peer under its identifier on
a successfully translated Resolved event, remove the entry under the
given identifier on a Removed event. -/
def specRegistryStep (reg : Registry) (ev : ServiceEvent) : Registry :=
  match ev with
  | .ServiceResolved info =>
    match translatePeer info with
    | some peer => mapInsert info.fullname peer reg
    | none => reg
  | .ServiceRemoved _ fullname => (mapRemove fullname reg).2
  | .otherEvent => reg

/-- Modelled from the spec (§8, Registry fold invariant): the reference
fold over a raw event sequence, applied exactly once per event. -/
def specRegistryFold (events : List ServiceEvent) (reg : Registry) : Registry :=
  events.foldl specRegistryStep reg

/-! ### The discovery-service facade

The pure state of one `PeerDiscovery` instance: the lifecycle flag
`is_running`, the registry `discovered_peers`, the configuration, plus
two observables used by the claims — the chronological log of all events
sent on `peer_sender`, and the number of `daemon.register` calls made.
The external registrar's behaviour (whether registration succeeds) is an
explicit input of `start`. -/

/-- Outcome of `register_service` as determined by the external
collaborators: success, a failure from `ServiceInfo::new`/
`daemon.register` (converted to `MdnsError` by the `From` impl in
`error.rs`), or a failure of local interface enumeration in
`DiscoveryConfig::ip_address` (a `NetworkInterfaceError`). -/
inductive RegisterOutcome where
  | success
  | mdnsFailure (msg : String)
  | interfaceFailure (msg : String)
  deriving DecidableEq, Repr

/-- The error `register_service` returns for a given non-success
outcome. -/
def RegisterOutcome.toError : RegisterOutcome → Option PeerDiscoveryError
  | .success => none
  | .mdnsFailure msg => some (.MdnsError msg)
  | .interfaceFailure msg => some (.NetworkInterfaceError msg)

/-- Pure state of a `PeerDiscovery` instance, with the published-event
log and the registrar-call count as explicit observables. -/
structure DiscoveryState where
  config : DiscoveryConfig
  is_running : Bool
  discovered_peers : Registry
  published : List PeerEvent
  registerCalls : Nat

/-- `PeerDiscovery::new(config)`: fresh state — registry empty, not
running, nothing published (the broadcast channel of capacity 100 is
created here). -/
def PeerDiscovery.new (config : DiscoveryConfig) : DiscoveryState :=
  { config := config
    is_running := false
    discovered_peers := []
    published := []
    registerCalls := 0 }

/-- `PeerDiscovery::start`: if already running, return `Ok` with no side
effect; otherwise set `is_running := true`, call `register_service`
(counted; on failure the error propagates via `?` with no further side
effect), start the browse loop (which itself always returns `Ok`), and
publish `ServiceStarted`. -/
def PeerDiscovery.start (outcome : RegisterOutcome) (s : DiscoveryState) :
    DiscoveryState × Except PeerDiscoveryError Unit :=
  if s.is_running then (s, .ok ())
  else
    let s1 := { s with is_running := true, registerCalls := s.registerCalls + 1 }
    match outcome.toError with
    | some e => (s1, .error e)
    | none =>
      ({ s1 with published := s1.published ++ [.ServiceStarted] }, .ok ())

/-- `PeerDiscovery::stop`: if not running, return `Ok` with no side
effect; otherwise set `is_running := false`, unregister (best effort —
`unregisterOk = false` models a failure, which is only logged and has no
effect on the state), clear the registry and publish `ServiceStopped`. -/
def PeerDiscovery.stop (unregisterOk : Bool) (s : DiscoveryState) :
    DiscoveryState × Except PeerDiscoveryError Unit :=
  if !s.is_running then (s, .ok ())
  else
    let _ := unregisterOk
    ({ s with is_running := false
              discovered_peers := []
              published := s.published ++ [.ServiceStopped] },
      .ok ())

/-- `PeerDiscovery::get_peers`: snapshot of the registry values. -/
def PeerDiscovery.get_peers (s : DiscoveryState) : List Peer :=
  mapValues s.discovered_peers

/-- `PeerDiscovery::get_peer`: single lookup by name. -/
def PeerDiscovery.get_peer (name : String) (s : DiscoveryState) : Option Peer :=
  mapFind name s.discovered_peers

/-- `PeerDiscovery::discover_peers`: resolve the timeout (argument or
`config.discovery_timeout`), call `start` first when not running
(propagating its error), sleep for the full timeout, then return the
registry snapshot. Returns the final state, the result, and the number
of time units slept. -/
def PeerDiscovery.discover_peers (timeout_duration : Option Nat)
    (outcome : RegisterOutcome) (s : DiscoveryState) :
    DiscoveryState × Except PeerDiscoveryError (List Peer) × Nat :=
  let t := timeout_duration.getD s.config.discovery_timeout
  if !s.is_running then
    match PeerDiscovery.start outcome s with
    | (s', .error e) => (s', .error e, 0)
    | (s', .ok _) => (s', .ok (PeerDiscovery.get_peers s'), t)
  else
    (s, .ok (PeerDiscovery.get_peers s), t)

/-- One raw service event processed by the (already spawned) browse
loop, acting on the facade state: the registry is updated and the
emitted events are appended to the published log. -/
def applyRawEvent (event : ServiceEvent) (s : DiscoveryState) : DiscoveryState :=
  let r := browseStep (s.discovered_peers, s.published) event
  { s with discovered_peers := r.1, published := r.2 }

/-- States reachable from a fresh instance by any sequence of `start`
and `stop` calls and processed raw events. -/
inductive Reachable : DiscoveryState → Prop where
  | init (config : DiscoveryConfig) : Reachable (PeerDiscovery.new config)
  | step_start {s : DiscoveryState} (outcome : RegisterOutcome) :
      Reachable s → Reachable (PeerDiscovery.start outcome s).1
  | step_stop {s : DiscoveryState} (unregisterOk : Bool) :
      Reachable s → Reachable (PeerDiscovery.stop unregisterOk s).1
  | step_event {s : DiscoveryState} (event : ServiceEvent) :
      Reachable s → Reachable (applyRawEvent event s)

/-! ### Event bus model

Modelled from the spec: the event bus is the tokio broadcast channel
created in `PeerDiscovery::new` with capacity 100; its implementation is
external to the repository, so it is modelled from §4.4 and §2 of the
spec: each `subscribe()` yields an independent cursor that observes only
events published after the call; published events fan out to all current
subscribers; the per-subscriber buffer is bounded, so a subscriber that
falls behind may miss the oldest buffered events. -/

/-- Modelled from the spec: the bus is the chronological log of all
events ever published on it. -/
structure EventBus where
  log : List PeerEvent

/-- The channel capacity used in `PeerDiscovery::new`
(`broadcast::channel(100)`). -/
def busCapacity : Nat := 100

/-- Modelled from the spec: `subscribe()` returns a cursor positioned at
the current end of the log — no replay of earlier events. -/
def EventBus.subscribeCursor (b : EventBus) : Nat := b.log.length

/-- Modelled from the spec: publishing appends the event to the log. -/
def EventBus.publish (b : EventBus) (e : PeerEvent) : EventBus :=
  { log := b.log ++ [e] }

/-- Modelled from the spec: publish a whole sequence. -/
def EventBus.publishAll (b : EventBus) (es : List PeerEvent) : EventBus :=
  es.foldl EventBus.publish b

/-- Modelled from the spec (bounded-buffer lag policy): a subscriber
whose cursor is `c`, draining the bus when its log has its current
length, receives exactly the events of index `i` with `c ≤ i` that are
still within the last `busCapacity` buffered entries. -/
def EventBus.receives (c : Nat) (b : EventBus) (i : Nat) : Bool :=
  c ≤ i && i < b.log.length && b.log.length ≤ i + busCapacity

/-! ### Helper lemmas about the association-list map -/

theorem mapFind_mem {α : Type} {k : String} {m : List (String × α)} {v : α}
    (h : mapFind k m = some v) : (k, v) ∈ m := by
  induction m with
  | nil => simp [mapFind] at h
  | cons kv t ih =>
    obtain ⟨k', v'⟩ := kv
    by_cases hk : k' = k
    · subst hk
      simp [mapFind] at h
      simp [h]
    · simp [mapFind, hk] at h
      exact List.mem_cons_of_mem _ (ih h)

theorem mem_mapInsert {α : Type} {kv : String × α} {k : String} {v : α}
    {m : List (String × α)} (h : kv ∈ mapInsert k v m) : kv = (k, v) ∨ kv ∈ m := by
  induction m with
  | nil => simp [mapInsert] at h; simp [h]
  | cons kv' t ih =>
    obtain ⟨k', v'⟩ := kv'
    by_cases hk : k' = k
    · simp [mapInsert, hk] at h
      rcases h with h | h
      · exact Or.inl h
      · exact Or.inr (List.mem_cons_of_mem _ h)
    · simp [mapInsert, hk] at h
      rcases h with h | h
      · exact Or.inr (by simp [h])
      · rcases ih h with h' | h'
        · exact Or.inl h'
        · exact Or.inr (List.mem_cons_of_mem _ h')

theorem mem_mapRemove {α : Type} {kv : String × α} {k : String}
    {m : List (String × α)} (h : kv ∈ (mapRemove k m).2) : kv ∈ m := by
  induction m with
  | nil => simp [mapRemove] at h
  | cons kv' t ih =>
    obtain ⟨k', v'⟩ := kv'
    by_cases hk : k' = k
    · simp [mapRemove, hk] at h
      exact List.mem_cons_of_mem _ h
    · simp [mapRemove, hk] at h
      rcases h with h | h
      · simp [h]
      · exact List.mem_cons_of_mem _ (ih h)

theorem mapRemove_fst {α : Type} (k : String) (m : List (String × α)) :
    (mapRemove k m).1 = mapFind k m := by
  induction m with
  | nil => simp [mapRemove, mapFind]
  | cons kv t ih =>
    obtain ⟨k', v'⟩ := kv
    by_cases hk : k' = k
    · simp [mapRemove, mapFind, hk]
    · simp [mapRemove, mapFind, hk, ih]

theorem mapRemove_of_find_none {α : Type} {k : String} {m : List (String × α)}
    (h : mapFind k m = none) : (mapRemove k m).2 = m := by
  induction m with
  | nil => simp [mapRemove]
  | cons kv t ih =>
    obtain ⟨k', v'⟩ := kv
    by_cases hk : k' = k
    · simp [mapFind, hk] at h
    · simp [mapFind, hk] at h
      simp [mapRemove, hk, ih h]

theorem mapFind_mapInsert {α : Type} (k k' : String) (v : α) (m : List (String × α)) :
    mapFind k' (mapInsert k v m) = if k = k' then some v else mapFind k' m := by
  induction m with
  | nil => simp [mapInsert, mapFind]
  | cons kv t ih =>
    obtain ⟨k₀, v₀⟩ := kv
    by_cases h₀ : k₀ = k
    · subst h₀
      by_cases hk : k₀ = k' <;> simp [mapInsert, mapFind, hk]
    · by_cases hk : k₀ = k'
      · subst hk
        have hkk : ¬ k = k₀ := fun hh => h₀ hh.symm
        simp [mapInsert, mapFind, h₀, hkk]
      · simp [mapInsert, mapFind, h₀, hk, ih]

theorem mapFind_mapRemove_ne {α : Type} {k k' : String} (m : List (String × α))
    (h : k' ≠ k) : mapFind k' (mapRemove k m).2 = mapFind k' m := by
  induction m with
  | nil => simp [mapRemove]
  | cons kv t ih =>
    obtain ⟨k₀, v₀⟩ := kv
    by_cases h₀ : k₀ = k
    · subst h₀
      have hk : ¬ k₀ = k' := fun hh => h (hh.symm)
      simp [mapRemove, mapFind, hk]
    · simp [mapRemove, mapFind, h₀, ih]

theorem mapFind_of_not_mem_keys {α : Type} {k : String} {m : List (String × α)}
    (h : k ∉ m.map Prod.fst) : mapFind k m = none := by
  induction m with
  | nil => simp [mapFind]
  | cons kv t ih =>
    obtain ⟨k₀, v₀⟩ := kv
    have h₀ : ¬ k₀ = k := fun hh => h (by simp [hh])
    have ht : k ∉ t.map Prod.fst := fun hh => h (by simp [hh])
    simp [mapFind, h₀, ih ht]

theorem mapFind_mapRemove_self {α : Type} {k : String} {m : List (String × α)}
    (hnodup : (m.map Prod.fst).Nodup) : mapFind k (mapRemove k m).2 = none := by
  induction m with
  | nil => simp [mapRemove, mapFind]
  | cons kv t ih =>
    obtain ⟨k₀, v₀⟩ := kv
    simp at hnodup
    by_cases h₀ : k₀ = k
    · subst h₀
      have hrm : (mapRemove k₀ ((k₀, v₀) :: t)).2 = t := by simp [mapRemove]
      rw [hrm]
      exact mapFind_of_not_mem_keys (by
        intro hh
        rcases List.mem_map.mp hh with ⟨⟨ka, va⟩, hmem, hfst⟩
        have hka : ka = k₀ := hfst
        exact hnodup.1 va (hka ▸ hmem))
    · simp [mapRemove, mapFind, h₀, ih hnodup.2]

theorem mapInsert_of_find_none {α : Type} {k : String} (v : α) {m : List (String × α)}
    (h : mapFind k m = none) : mapInsert k v m = m ++ [(k, v)] := by
  induction m with
  | nil => simp [mapInsert]
  | cons kv t ih =>
    obtain ⟨k₀, v₀⟩ := kv
    by_cases h₀ : k₀ = k
    · simp [mapFind, h₀] at h
    · simp only [mapFind, if_neg h₀] at h
      simp [mapInsert, h₀, ih h]

/-! ### The browse loop computes the spec fold on the registry -/

theorem handle_service_event_registry (ev : ServiceEvent) (reg : Registry) :
    (handle_service_event ev reg).1 = specRegistryStep reg ev := by
  cases ev with
  | ServiceResolved info =>
    cases hf : info.addresses.find? (fun addr => addr.is_ipv4) with
    | none => simp [handle_service_event, specRegistryStep, translatePeer, hf]
    | some ip => simp [handle_service_event, specRegistryStep, translatePeer, hf]
  | ServiceRemoved ty fullname =>
    cases hr : (mapRemove fullname reg).1 <;>
      simp [handle_service_event, specRegistryStep, hr]
  | otherEvent => rfl

theorem browseStep_registry (s : Registry × List PeerEvent) (ev : ServiceEvent) :
    (browseStep s ev).1 = specRegistryStep s.1 ev := by
  rw [← handle_service_event_registry]
  cases hc : (handle_service_event ev s.1).2.2 <;> simp [browseStep, hc]

theorem browseLoop_registry (events : List ServiceEvent)
    (s : Registry × List PeerEvent) :
    (browseLoop events s).1 = specRegistryFold events s.1 := by
  induction events generalizing s with
  | nil => rfl
  | cons ev evs ih =>
    have h1 : browseLoop (ev :: evs) s = browseLoop evs (browseStep s ev) := rfl
    have h2 : specRegistryFold (ev :: evs) s.1 =
        specRegistryFold evs (specRegistryStep s.1 ev) := rfl
    rw [h1, h2, ih, browseStep_registry]

/-- C1: for every finite sequence of raw browse events processed one at
a time by the browse-loop handler starting from the empty registry, the
final registry equals the spec's fold that inserts the translated Peer
under its identifier on each successfully translated Resolved event and
removes the entry under the given identifier on each Removed event,
applied exactly once per event. -/
theorem registry_fold_invariant (events : List ServiceEvent) :
    (browseLoop events ([], [])).1 = specRegistryFold events [] :=
  browseLoop_registry events ([], [])

/-! ### Concrete fixtures used by witnesses -/

/-- A resolved record advertising only an IPv6 address. -/
def infoV6 : ServiceInfo :=
  { fullname := "alice"
    addresses := [IpAddr.v6 1]
    port := 9000
    ty := "_qopyapp._tcp.local."
    properties := [] }

/-- A resolved record advertising one IPv4 address. -/
def infoAlice : ServiceInfo :=
  { fullname := "alice"
    addresses := [IpAddr.v4 5]
    port := 8080
    ty := "_qopyapp._tcp.local."
    properties := [] }

/-- The peer `handle_service_event` builds from `infoAlice`. -/
def peerAlice : Peer :=
  { name := "alice"
    ip := IpAddr.v4 5
    port := 8080
    service_type := "_qopyapp._tcp.local."
    properties := [] }

/-- A running service state holding one discovered peer. -/
def runningState : DiscoveryState :=
  { config := DiscoveryConfig.default
    is_running := true
    discovered_peers := [("alice", peerAlice)]
    published := [PeerEvent.ServiceStarted]
    registerCalls := 1 }

/-- A stopped (never started) service state. -/
def stoppedState : DiscoveryState := PeerDiscovery.new DiscoveryConfig.default

/-! ### C5: resolved record without an IPv4 address -/

/-- C5: processing a Resolved raw event whose record advertises only
non-IPv4 addresses leaves the registry unchanged, publishes no
`PeerDiscovered` event, and publishes exactly one `Error` event carrying
the address-resolution error (`NetworkInterfaceError "No IPv4 address
found"`, the kind the code produces when address selection fails). -/
theorem resolved_no_ipv4 (info : ServiceInfo) (reg : Registry)
    (log : List PeerEvent) (h : ∀ a ∈ info.addresses, a.is_ipv4 = false) :
    browseStep (reg, log) (.ServiceResolved info) =
      (reg, log ++ [.Error (.NetworkInterfaceError "No IPv4 address found")]) := by
  have hf : info.addresses.find? (fun addr => addr.is_ipv4) = none :=
    List.find?_eq_none.mpr (fun a ha => by simp [h a ha])
  simp [browseStep, handle_service_event, hf]

theorem resolved_no_ipv4_witness :
    browseStep (([], []) : Registry × List PeerEvent) (.ServiceResolved infoV6) =
      ([], [.Error (.NetworkInterfaceError "No IPv4 address found")]) :=
  resolved_no_ipv4 infoV6 [] [] (by decide)

/-! ### C6: removed-record events -/

/-- C6: for a Removed raw event with identifier `id`: if the registry
holds an entry for `id`, the handler removes exactly that entry (the
entry for `id` is gone, all other keys unchanged) and publishes exactly
one `PeerLost` event carrying the just-removed peer; if the registry
holds no entry for `id`, the handler publishes no event and leaves the
registry unchanged. -/
theorem removed_event_behavior (reg : Registry) (ty id : String) :
    (∀ p, mapFind id reg = some p →
      handle_service_event (.ServiceRemoved ty id) reg =
        ((mapRemove id reg).2, [.PeerLost p], .ok ()) ∧
      ((reg.map Prod.fst).Nodup → mapFind id (mapRemove id reg).2 = none) ∧
      (∀ k, k ≠ id → mapFind k (mapRemove id reg).2 = mapFind k reg)) ∧
    (mapFind id reg = none →
      handle_service_event (.ServiceRemoved ty id) reg = (reg, [], .ok ())) := by
  constructor
  · intro p hp
    refine ⟨?_, fun hn => mapFind_mapRemove_self hn,
      fun k hk => mapFind_mapRemove_ne reg hk⟩
    have h1 : (mapRemove id reg).1 = some p := by rw [mapRemove_fst]; exact hp
    simp [handle_service_event, h1]
  · intro hp
    have h1 : (mapRemove id reg).1 = none := by rw [mapRemove_fst]; exact hp
    simp [handle_service_event, h1, mapRemove_of_find_none hp]

theorem removed_event_behavior_witness :
    handle_service_event (.ServiceRemoved "_qopyapp._tcp.local." "alice")
        [("alice", peerAlice)] =
      (([] : Registry), [.PeerLost peerAlice], .ok ()) := by
  have h :=
    ((removed_event_behavior [("alice", peerAlice)] "_qopyapp._tcp.local."
      "alice").1 peerAlice (by rfl)).1
  rw [h]
  rfl

/-! ### C7: stop clears the registry -/

/-- C7: a `stop()` call from the Running state returns `Ok`, and
afterwards `get_peers()` returns the empty sequence, regardless of the
prior registry contents. -/
theorem stop_clears_registry (s : DiscoveryState) (unregisterOk : Bool)
    (h : s.is_running = true) :
    (PeerDiscovery.stop unregisterOk s).2 = .ok () ∧
    PeerDiscovery.get_peers (PeerDiscovery.stop unregisterOk s).1 = [] := by
  simp [PeerDiscovery.stop, h, PeerDiscovery.get_peers, mapValues]

theorem stop_clears_registry_witness :
    (PeerDiscovery.stop true runningState).2 = .ok () ∧
    PeerDiscovery.get_peers (PeerDiscovery.stop true runningState).1 = [] :=
  stop_clears_registry runningState true rfl

/-! ### C10: every registry entry is keyed by its peer's name -/

/-- Every entry `(key, peer)` of the registry satisfies
`peer.name = key`. -/
def RegistryKeyed (reg : Registry) : Prop :=
  ∀ kv ∈ reg, (kv.2).name = kv.1

theorem translatePeer_name {info : ServiceInfo} {peer : Peer}
    (h : translatePeer info = some peer) : peer.name = info.fullname := by
  unfold translatePeer at h
  cases hf : info.addresses.find? (fun addr => addr.is_ipv4) with
  | none => rw [hf] at h; simp at h
  | some ip =>
    rw [hf] at h
    simp at h
    rw [← h]

theorem start_registry_unchanged (o : RegisterOutcome) (s : DiscoveryState) :
    (PeerDiscovery.start o s).1.discovered_peers = s.discovered_peers := by
  unfold PeerDiscovery.start
  by_cases h : s.is_running <;> cases o <;> simp [h, RegisterOutcome.toError]

theorem stop_registry_cases (b : Bool) (s : DiscoveryState) :
    (PeerDiscovery.stop b s).1.discovered_peers = s.discovered_peers ∨
    (PeerDiscovery.stop b s).1.discovered_peers = [] := by
  unfold PeerDiscovery.stop
  by_cases h : s.is_running <;> simp [h]

theorem applyRawEvent_registry (ev : ServiceEvent) (s : DiscoveryState) :
    (applyRawEvent ev s).discovered_peers =
      specRegistryStep s.discovered_peers ev := by
  simp [applyRawEvent, browseStep_registry]

theorem registryKeyed_specStep {reg : Registry} (ev : ServiceEvent)
    (hreg : RegistryKeyed reg) : RegistryKeyed (specRegistryStep reg ev) := by
  cases ev with
  | ServiceResolved info =>
    cases ht : translatePeer info with
    | none => simpa [specRegistryStep, ht] using hreg
    | some peer =>
      simp only [specRegistryStep, ht]
      intro kv hkv
      rcases mem_mapInsert hkv with h | h
      · rw [h]
        exact translatePeer_name ht
      · exact hreg kv h
  | ServiceRemoved ty fullname =>
    intro kv hkv
    exact hreg kv (mem_mapRemove hkv)
  | otherEvent => exact hreg

theorem registryKeyed_reachable (s : DiscoveryState) (h : Reachable s) :
    RegistryKeyed s.discovered_peers := by
  induction h with
  | init config =>
    intro kv hkv
    simp [PeerDiscovery.new] at hkv
  | step_start outcome hr ih =>
    rw [start_registry_unchanged]
    exact ih
  | step_stop unregisterOk hr ih =>
    rcases stop_registry_cases unregisterOk _ with heq | heq <;> rw [heq]
    · exact ih
    · intro kv hkv
      simp at hkv
  | step_event event hr ih =>
    rw [applyRawEvent_registry]
    exact registryKeyed_specStep event ih

/-- C10: in every state reachable by any sequence of start/stop calls
and processed raw events, every registry entry stores a Peer under its
own identifier: `get_peer(id)` returns either nothing or a Peer whose
`name` equals `id`. -/
theorem registry_entries_keyed_by_name (s : DiscoveryState) (h : Reachable s)
    (k : String) (p : Peer) (hp : PeerDiscovery.get_peer k s = some p) :
    p.name = k :=
  registryKeyed_reachable s h (k, p) (mapFind_mem hp)

theorem registry_entries_keyed_by_name_witness : peerAlice.name = "alice" :=
  registry_entries_keyed_by_name
    (applyRawEvent (.ServiceResolved infoAlice)
      (PeerDiscovery.new DiscoveryConfig.default))
    (Reachable.step_event _ (Reachable.init _)) "alice" peerAlice (by rfl)

/-! ### C2: start() with failing registration -/

/-- C2 counterexample: from a fresh (not Running) state, a `start()`
whose registration fails returns the error, but the lifecycle state is
NOT unchanged: the service has already been marked Running, and a
subsequent `start()` is a no-op that does not attempt registration again
(the register-call count stays at 1) and never publishes
`ServiceStarted`. -/
theorem start_failure_counterexample :
    stoppedState.is_running = false ∧
    (PeerDiscovery.start (.mdnsFailure "daemon failure") stoppedState).2 =
      .error (.MdnsError "daemon failure") ∧
    (PeerDiscovery.start (.mdnsFailure "daemon failure") stoppedState).1.is_running
      = true ∧
    (PeerDiscovery.start .success
      (PeerDiscovery.start (.mdnsFailure "daemon failure")
        stoppedState).1).1.registerCalls = 1 ∧
    (PeerDiscovery.start .success
      (PeerDiscovery.start (.mdnsFailure "daemon failure")
        stoppedState).1).1.published = [] :=
  ⟨rfl, rfl, rfl, rfl, rfl⟩

/-- C2 (amended): when `start()` is called while not Running and
registration fails, `start()` returns that error, but the service has
already been marked Running: a subsequent `start()` is a no-op success
that does not retry registration, and `ServiceStarted` is not published
by the failing call — it is published only when registration
succeeds. -/
theorem start_failure_behavior (s : DiscoveryState) (o : RegisterOutcome)
    (e : PeerDiscoveryError) (hrun : s.is_running = false)
    (herr : o.toError = some e) :
    (PeerDiscovery.start o s).2 = .error e ∧
    (PeerDiscovery.start o s).1.is_running = true ∧
    (PeerDiscovery.start o s).1.published = s.published ∧
    (PeerDiscovery.start o s).1.registerCalls = s.registerCalls + 1 ∧
    (∀ o', PeerDiscovery.start o' (PeerDiscovery.start o s).1 =
      ((PeerDiscovery.start o s).1, .ok ())) ∧
    (∀ o₂, o₂.toError = none →
      (PeerDiscovery.start o₂ s).1.published =
        s.published ++ [.ServiceStarted]) := by
  have h1 : PeerDiscovery.start o s =
      ({ s with is_running := true, registerCalls := s.registerCalls + 1 },
        .error e) := by
    unfold PeerDiscovery.start
    simp [hrun, herr]
  refine ⟨by rw [h1], by rw [h1], by rw [h1], by rw [h1], fun o' => ?_,
    fun o₂ ho₂ => ?_⟩
  · rw [h1]
    unfold PeerDiscovery.start
    simp
  · unfold PeerDiscovery.start
    simp [hrun, ho₂]

theorem start_failure_behavior_witness :
    (PeerDiscovery.start (.mdnsFailure "x") stoppedState).1.is_running = true :=
  (start_failure_behavior stoppedState (.mdnsFailure "x") (.MdnsError "x")
    rfl rfl).2.1

/-! ### C4: idempotent lifecycle -/

/-- Number of `ServiceStarted` events in a published-event log. -/
def countStarted (log : List PeerEvent) : Nat :=
  log.countP fun e => match e with | .ServiceStarted => true | _ => false

/-- C4: `start()` while Running and `stop()` while Stopped are no-op
successes; two sequential `start()` calls with no intervening `stop()`
(the first registration succeeding) produce exactly one `ServiceStarted`
event and exactly one registration call. -/
theorem lifecycle_idempotent (s₁ s₂ : DiscoveryState) (o : RegisterOutcome)
    (b : Bool) (h₁ : s₁.is_running = true) (h₂ : s₂.is_running = false) :
    PeerDiscovery.start o s₁ = (s₁, .ok ()) ∧
    PeerDiscovery.stop b s₂ = (s₂, .ok ()) ∧
    PeerDiscovery.start o (PeerDiscovery.start .success s₂).1 =
      ((PeerDiscovery.start .success s₂).1, .ok ()) ∧
    countStarted
        (PeerDiscovery.start o (PeerDiscovery.start .success s₂).1).1.published =
      countStarted s₂.published + 1 ∧
    (PeerDiscovery.start o
        (PeerDiscovery.start .success s₂).1).1.registerCalls =
      s₂.registerCalls + 1 := by
  have hstart1 : PeerDiscovery.start .success s₂ =
      ({ s₂ with is_running := true
                 registerCalls := s₂.registerCalls + 1
                 published := s₂.published ++ [.ServiceStarted] }, .ok ()) := by
    unfold PeerDiscovery.start
    simp [h₂, RegisterOutcome.toError]
  have hstart2 : PeerDiscovery.start o (PeerDiscovery.start .success s₂).1 =
      ((PeerDiscovery.start .success s₂).1, .ok ()) := by
    rw [hstart1]
    unfold PeerDiscovery.start
    simp
  refine ⟨?_, ?_, hstart2, ?_, ?_⟩
  · unfold PeerDiscovery.start
    simp [h₁]
  · unfold PeerDiscovery.stop
    simp [h₂]
  · rw [hstart2, hstart1]
    show countStarted (s₂.published ++ [.ServiceStarted]) =
      countStarted s₂.published + 1
    unfold countStarted
    rw [List.countP_append]
    rfl
  · rw [hstart2, hstart1]

theorem lifecycle_idempotent_witness :
    PeerDiscovery.start .success runningState = (runningState, .ok ()) ∧
    PeerDiscovery.stop true stoppedState = (stoppedState, .ok ()) :=
  ⟨(lifecycle_idempotent runningState stoppedState .success true rfl rfl).1,
   (lifecycle_idempotent runningState stoppedState .success true rfl rfl).2.1⟩

/-! ### C3: discover_peers -/

theorem discover_peers_eq (s : DiscoveryState) (t? : Option Nat)
    (o : RegisterOutcome) :
    PeerDiscovery.discover_peers t? o s =
      if s.is_running then
        (s, .ok (PeerDiscovery.get_peers s), t?.getD s.config.discovery_timeout)
      else
        match o.toError with
        | some e => ((PeerDiscovery.start o s).1, .error e, 0)
        | none =>
          ((PeerDiscovery.start o s).1,
            .ok (PeerDiscovery.get_peers (PeerDiscovery.start o s).1),
            t?.getD s.config.discovery_timeout) := by
  unfold PeerDiscovery.discover_peers PeerDiscovery.start
  by_cases hrun : s.is_running <;> cases o <;>
    simp [hrun, RegisterOutcome.toError]

/-- C3: `discover_peers(t)` returns an error if and only if the service
was not Running and the internal `start()` failed (and the error is
exactly the start error); in every other case it returns `Ok` with the
registry snapshot of the final state after waiting the full resolved
timeout (`t` if given, else `config.discovery_timeout`); and it never
returns a `DiscoveryTimeout`-kind error. -/
theorem discover_peers_behavior (s : DiscoveryState) (t? : Option Nat)
    (o : RegisterOutcome) :
    ((∃ e, (PeerDiscovery.discover_peers t? o s).2.1 = .error e) ↔
      (s.is_running = false ∧ o.toError ≠ none)) ∧
    (∀ e, (PeerDiscovery.discover_peers t? o s).2.1 = .error e →
      o.toError = some e ∧ e.isTimeoutKind = false) ∧
    (∀ peers, (PeerDiscovery.discover_peers t? o s).2.1 = .ok peers →
      peers = PeerDiscovery.get_peers (PeerDiscovery.discover_peers t? o s).1 ∧
      (PeerDiscovery.discover_peers t? o s).2.2 =
        t?.getD s.config.discovery_timeout) := by
  rw [discover_peers_eq]
  by_cases hrun : s.is_running
  · simp [hrun]
  · cases o with
    | success => simp [hrun, RegisterOutcome.toError]
    | mdnsFailure msg =>
      simp [hrun, RegisterOutcome.toError, PeerDiscoveryError.isTimeoutKind]
    | interfaceFailure msg =>
      simp [hrun, RegisterOutcome.toError, PeerDiscoveryError.isTimeoutKind]

theorem discover_peers_behavior_witness :
    (PeerDiscoveryError.MdnsError "x").isTimeoutKind = false :=
  ((discover_peers_behavior stoppedState none (.mdnsFailure "x")).2.1
    (.MdnsError "x") rfl).2

/-! ### C8: subscription visibility on the event bus -/

theorem publishAll_log (b : EventBus) (es : List PeerEvent) :
    (EventBus.publishAll b es).log = b.log ++ es := by
  induction es generalizing b with
  | nil => simp [EventBus.publishAll]
  | cons e t ih =>
    show (EventBus.publishAll (b.publish e) t).log = b.log ++ e :: t
    rw [ih]
    simp [EventBus.publish]

/-- C8: with the event bus modelled from the spec, a subscriber whose
cursor was taken before an event's publication receives that event (as
long as it is within the bounded-buffer lag window), the event received
at that index is the published one, and a subscriber whose cursor was
taken strictly after the publication never receives it — `subscribe()`
performs no replay. -/
theorem subscription_visibility (b : EventBus) (e : PeerEvent)
    (es₁ es₂ es₃ : List PeerEvent) :
    (es₁.length + 1 ≤ busCapacity →
      EventBus.receives b.subscribeCursor
        (EventBus.publishAll (b.publish e) es₁) b.log.length = true) ∧
    (EventBus.publishAll (b.publish e) es₁).log[b.log.length]? = some e ∧
    EventBus.receives
      (EventBus.publishAll (b.publish e) es₂).subscribeCursor
      (EventBus.publishAll (EventBus.publishAll (b.publish e) es₂) es₃)
      b.log.length = false := by
  have hpub : (b.publish e).log = b.log ++ [e] := rfl
  refine ⟨fun hcap => ?_, ?_, ?_⟩
  · simp only [EventBus.receives, EventBus.subscribeCursor, publishAll_log,
      hpub, List.length_append, List.length_cons, List.length_nil]
    simp only [Bool.and_eq_true, decide_eq_true_eq]
    refine ⟨⟨le_refl _, ?_⟩, ?_⟩ <;> [omega; (unfold busCapacity at *; omega)]
  · rw [publishAll_log, hpub, List.append_assoc,
      List.getElem?_append_right (le_refl _)]
    simp
  · simp only [EventBus.receives, EventBus.subscribeCursor, publishAll_log,
      hpub, List.length_append, List.length_cons, List.length_nil]
    have hlt : ¬ (b.log.length + (0 + 1) + es₂.length ≤ b.log.length) := by
      omega
    simp [hlt]

theorem subscription_visibility_witness :
    EventBus.receives (EventBus.mk []).subscribeCursor
      (EventBus.publishAll ((EventBus.mk []).publish .ServiceStarted) [])
      (EventBus.mk []).log.length = true :=
  (subscription_visibility (EventBus.mk []) .ServiceStarted [] [] []).1
    (by decide)

/-! ### C9: translated property bag -/

theorem mapFind_append_none {α : Type} {k : String} {m₁ : List (String × α)}
    (m₂ : List (String × α)) (h : mapFind k m₁ = none) :
    mapFind k (m₁ ++ m₂) = mapFind k m₂ := by
  induction m₁ with
  | nil => simp
  | cons kv t ih =>
    obtain ⟨k₀, v₀⟩ := kv
    by_cases h₀ : k₀ = k
    · simp [mapFind, h₀] at h
    · simp only [mapFind, if_neg h₀] at h
      simp only [List.cons_append, mapFind, if_neg h₀]
      exact ih h

theorem foldl_mapInsert_eq_append {α : Type} (L acc : List (String × α))
    (hdisj : ∀ kv ∈ L, mapFind kv.1 acc = none)
    (hnodup : (L.map Prod.fst).Nodup) :
    L.foldl (fun m kv => mapInsert kv.1 kv.2 m) acc = acc ++ L := by
  induction L generalizing acc with
  | nil => simp
  | cons kv t ih =>
    obtain ⟨k₀, v₀⟩ := kv
    simp only [List.map_cons, List.nodup_cons] at hnodup
    have hacc : mapInsert k₀ v₀ acc = acc ++ [(k₀, v₀)] :=
      mapInsert_of_find_none v₀ (hdisj (k₀, v₀) (by simp))
    have hdisj' : ∀ kv ∈ t, mapFind kv.1 (acc ++ [(k₀, v₀)]) = none := by
      intro kv hkv
      have hne : ¬ k₀ = kv.1 := by
        intro hh
        exact hnodup.1 (by
          rw [hh]
          exact List.mem_map.mpr ⟨kv, hkv, rfl⟩)
      rw [mapFind_append_none _ (hdisj kv (List.mem_cons_of_mem _ hkv))]
      simp [mapFind, hne]
    calc ((k₀, v₀) :: t).foldl (fun m kv => mapInsert kv.1 kv.2 m) acc
        = t.foldl (fun m kv => mapInsert kv.1 kv.2 m) (mapInsert k₀ v₀ acc) := rfl
      _ = t.foldl (fun m kv => mapInsert kv.1 kv.2 m) (acc ++ [(k₀, v₀)]) := by
          rw [hacc]
      _ = (acc ++ [(k₀, v₀)]) ++ t := ih (acc ++ [(k₀, v₀)]) hdisj' hnodup.2
      _ = acc ++ (k₀, v₀) :: t := by simp

theorem mem_keys_filterMap_decode {props : List (String × Option (List Nat))}
    {k : String}
    (h : k ∈ (props.filterMap fun prop =>
      prop.2.map fun val => (prop.1, from_utf8_lossy val)).map Prod.fst) :
    k ∈ props.map Prod.fst := by
  rcases List.mem_map.mp h with ⟨kv, hkv, hfst⟩
  rcases List.mem_filterMap.mp hkv with ⟨p, hp, hmap⟩
  cases hv : p.2 with
  | none => rw [hv] at hmap; simp at hmap
  | some val =>
    rw [hv] at hmap
    simp at hmap
    exact List.mem_map.mpr ⟨p, hp, by rw [← hfst, ← hmap]⟩

theorem keys_filterMap_decode_nodup {props : List (String × Option (List Nat))}
    (hnodup : (props.map Prod.fst).Nodup) :
    ((props.filterMap fun prop =>
      prop.2.map fun val => (prop.1, from_utf8_lossy val)).map Prod.fst).Nodup := by
  induction props with
  | nil => simp
  | cons p t ih =>
    simp only [List.map_cons, List.nodup_cons] at hnodup
    cases hv : p.2 with
    | none =>
      have hcons : (p :: t).filterMap (fun prop =>
          prop.2.map fun val => (prop.1, from_utf8_lossy val)) =
          t.filterMap (fun prop =>
            prop.2.map fun val => (prop.1, from_utf8_lossy val)) :=
        List.filterMap_cons_none (by simp [hv])
      rw [hcons]
      exact ih hnodup.2
    | some val =>
      have hcons : (p :: t).filterMap (fun prop =>
          prop.2.map fun val => (prop.1, from_utf8_lossy val)) =
          (p.1, from_utf8_lossy val) :: t.filterMap (fun prop =>
            prop.2.map fun val => (prop.1, from_utf8_lossy val)) :=
        List.filterMap_cons_some (by simp [hv])
      rw [hcons]
      simp only [List.map_cons, List.nodup_cons]
      exact ⟨fun hmem => hnodup.1 (mem_keys_filterMap_decode hmem), ih hnodup.2⟩

theorem mapFind_filterMap_decode (props : List (String × Option (List Nat)))
    (hnodup : (props.map Prod.fst).Nodup) (k : String) :
    mapFind k (props.filterMap fun prop =>
      prop.2.map fun val => (prop.1, from_utf8_lossy val)) =
      (match mapFind k props with
       | some (some bytes) => some (from_utf8_lossy bytes)
       | some none => none
       | none => none) := by
  induction props with
  | nil => simp [mapFind]
  | cons p t ih =>
    obtain ⟨k₀, v?⟩ := p
    simp only [List.map_cons, List.nodup_cons] at hnodup
    cases v? with
    | none =>
      by_cases hk : k₀ = k
      · subst hk
        have hnomem : k₀ ∉ (t.filterMap fun prop =>
            prop.2.map fun val => (prop.1, from_utf8_lossy val)).map Prod.fst :=
          fun hmem => hnodup.1 (mem_keys_filterMap_decode hmem)
        simp [List.filterMap_cons, mapFind, mapFind_of_not_mem_keys hnomem]
      · simp [List.filterMap_cons, mapFind, hk, ih hnodup.2]
    | some bytes =>
      by_cases hk : k₀ = k
      · simp [List.filterMap_cons, mapFind, hk]
      · simp [List.filterMap_cons, mapFind, hk, ih hnodup.2]

theorem translatePeer_properties {info : ServiceInfo} {peer : Peer}
    (h : translatePeer info = some peer) :
    peer.properties = translateProps info.properties := by
  unfold translatePeer at h
  cases hf : info.addresses.find? (fun addr => addr.is_ipv4) with
  | none => rw [hf] at h; simp at h
  | some ip =>
    rw [hf] at h
    simp at h
    rw [← h]

/-- C9: for every successfully translated Resolved record, the Peer's
property bag contains exactly the record's properties that have an
associated value — looked up by key, the bag yields the lossy UTF-8
decoding of the raw value bytes when the record's property has a value,
and nothing when the property is absent or has no associated value. -/
theorem translated_properties (info : ServiceInfo) (peer : Peer)
    (h : translatePeer info = some peer)
    (hnodup : (info.properties.map Prod.fst).Nodup) (k : String) :
    mapFind k peer.properties =
      (match mapFind k info.properties with
       | some (some bytes) => some (from_utf8_lossy bytes)
       | some none => none
       | none => none) := by
  rw [translatePeer_properties h]
  unfold translateProps
  rw [foldl_mapInsert_eq_append _ []
    (fun kv _ => by simp [mapFind]) (keys_filterMap_decode_nodup hnodup)]
  rw [List.nil_append]
  exact mapFind_filterMap_decode info.properties hnodup k

/-- A resolved record with one valued and one value-less TXT property. -/
def infoProps : ServiceInfo :=
  { fullname := "bob"
    addresses := [IpAddr.v4 7]
    port := 8080
    ty := "_qopyapp._tcp.local."
    properties := [("device_type", some [113]), ("flag", none)] }

/-- The peer `handle_service_event` builds from `infoProps`. -/
def peerProps : Peer :=
  { name := "bob"
    ip := IpAddr.v4 7
    port := 8080
    service_type := "_qopyapp._tcp.local."
    properties := [("device_type", from_utf8_lossy [113])] }

theorem translated_properties_witness :
    mapFind "device_type" peerProps.properties = some (from_utf8_lossy [113]) ∧
    mapFind "flag" peerProps.properties = none := by
  have h1 := translated_properties infoProps peerProps rfl (by decide) "device_type"
  have h2 := translated_properties infoProps peerProps rfl (by decide) "flag"
  refine ⟨?_, ?_⟩
  · rw [h1]; rfl
  · rw [h2]; rfl
